import Mathlib

/-!
Verification of `cpu_recorder.py`.

A shallow embedding of the CPU-usage recorder script and proofs of the
specification's claims about it.

The script has three functions:
* `_read_cpu_times` — reads the first line of `/proc/stat`, drops the label
  token and parses the remaining whitespace-separated tokens as integers;
* `_cpu_percent`   — takes two snapshots separated by a sleep and computes
  `100.0 * (total_delta - idle_delta) / total_delta` (or `0.0` when
  `total_delta == 0`), with `idle = snapshot[3] + snapshot[4]`;
* `record_cpu`     — opens the sink (a file in append mode, or stdout for
  target `"-"`), writes the header row when the file did not exist (always
  for stdout), then loops `while iterations == 0 or count < iterations`,
  appending one data row per cycle.

Python's arbitrary-precision integers are modelled as `ℤ`, the float result
of the percentage as `ℚ` (the computation is a single exact division), and
the failure of an out-of-bounds list index (Python `IndexError`) as `none`
in `Option`.  The environment of the loop — the value produced by each call
to `_cpu_percent`, which does I/O — is modelled as a function from the cycle
number to `Option ℚ`, `none` meaning that the snapshot read or the
computation raised during that cycle.
-/

/-- Embeds `_cpu_percent`'s arithmetic on its two snapshots
(`cpu_recorder.py`, lines 26-34).  The indexing `prev[3]`, `prev[4]`,
`curr[3]`, `curr[4]` can raise `IndexError` in Python, so the result is an
`Option`: `none` means the lookup raised.  When the lookups succeed the
result is `0` if `total_delta == 0` and
`100 * (total_delta - idle_delta) / total_delta` otherwise. -/
def cpuPercent (prev curr : List ℤ) : Option ℚ :=
  match (prev[3]? : Option ℤ), (prev[4]? : Option ℤ),
        (curr[3]? : Option ℤ), (curr[4]? : Option ℤ) with
  | some p3, some p4, some c3, some c4 =>
    let idle_prev := p3 + p4
    let idle_curr := c3 + c4
    let total_prev := prev.sum
    let total_curr := curr.sum
    let total_delta := total_curr - total_prev
    let idle_delta := idle_curr - idle_prev
    if total_delta = 0 then some 0
    else some (100 * ((total_delta : ℚ) - (idle_delta : ℚ)) / (total_delta : ℚ))
  | _, _, _, _ => none

/-- The total and idle deltas of a snapshot pair, as the spec names them. -/
def totalDelta (prev curr : List ℤ) : ℤ := curr.sum - prev.sum

def idleDelta (prev curr : List ℤ) : ℤ :=
  (curr.getD 3 0 + curr.getD 4 0) - (prev.getD 3 0 + prev.getD 4 0)

theorem cpuPercent_eq_of_len (prev curr : List ℤ)
    (hp : 5 ≤ prev.length) (hc : 5 ≤ curr.length) :
    cpuPercent prev curr =
      some (if totalDelta prev curr = 0 then 0
            else 100 * ((totalDelta prev curr : ℚ) - (idleDelta prev curr : ℚ)) /
              (totalDelta prev curr : ℚ)) := by
  have hp3 : prev[3]? = some prev[3] := List.getElem?_eq_getElem (by omega)
  have hp4 : prev[4]? = some prev[4] := List.getElem?_eq_getElem (by omega)
  have hc3 : curr[3]? = some curr[3] := List.getElem?_eq_getElem (by omega)
  have hc4 : curr[4]? = some curr[4] := List.getElem?_eq_getElem (by omega)
  have gp3 : prev.getD 3 0 = prev[3] := by simp [List.getD, hp3]
  have gp4 : prev.getD 4 0 = prev[4] := by simp [List.getD, hp4]
  have gc3 : curr.getD 3 0 = curr[3] := by simp [List.getD, hc3]
  have gc4 : curr.getD 4 0 = curr[4] := by simp [List.getD, hc4]
  simp only [cpuPercent, hp3, hp4, hc3, hc4, totalDelta, idleDelta,
    gp3, gp4, gc3, gc4]
  split <;> rfl

lemma cpuPercent_none_of_short (prev curr : List ℤ)
    (h : prev.length < 5 ∨ curr.length < 5) : cpuPercent prev curr = none := by
  unfold cpuPercent
  split
  · rename_i p3 p4 c3 c4 h1 h2 h3 h4
    rcases h with h | h
    · rw [List.getElem?_eq_none (by omega : prev.length ≤ 4)] at h2
      cases h2
    · rw [List.getElem?_eq_none (by omega : curr.length ≤ 4)] at h4
      cases h4
  · rfl

/-- C1: for every pair of snapshots with at least 5 counters each, the
computed utilization is `0` when `total_delta = 0` and otherwise
`100 * (total_delta - idle_delta) / total_delta`, where
`idle_delta = (curr[3] + curr[4]) - (prev[3] + prev[4])`. -/
theorem claim_C1_utilization_formula (prev curr : List ℤ)
    (hp : 5 ≤ prev.length) (hc : 5 ≤ curr.length) :
    cpuPercent prev curr =
      some (if totalDelta prev curr = 0 then 0
            else 100 * ((totalDelta prev curr : ℚ) - (idleDelta prev curr : ℚ)) /
              (totalDelta prev curr : ℚ)) :=
  cpuPercent_eq_of_len prev curr hp hc

/-- Witness for C1, the spec's scenario: `prev = [100,0,0,800,50,0,0,0]`,
`curr = [110,0,0,850,50,0,0,0]` gives `100 * (60 - 50) / 60 = 50/3` (the
spec's `16.666...`). -/
theorem claim_C1_utilization_formula_witness :
    cpuPercent [100, 0, 0, 800, 50, 0, 0, 0] [110, 0, 0, 850, 50, 0, 0, 0] =
      some (50 / 3) := by
  rw [claim_C1_utilization_formula [100, 0, 0, 800, 50, 0, 0, 0]
    [110, 0, 0, 850, 50, 0, 0, 0] (by decide) (by decide)]
  simp [totalDelta, idleDelta, List.getD]
  norm_num

/-- C8: the idle-index lookups `prev[3]`, `prev[4]`, `curr[3]`, `curr[4]`
succeed (the computation returns a value) exactly when both snapshots have
at least 5 counters; with fewer the lookup raises (`none`), no default is
guessed. -/
theorem claim_C8_idle_index_bounds (prev curr : List ℤ) :
    (cpuPercent prev curr).isSome ↔ 5 ≤ prev.length ∧ 5 ≤ curr.length := by
  constructor
  · intro h
    rcases Nat.lt_or_ge prev.length 5 with hp | hp
    · rw [cpuPercent_none_of_short prev curr (Or.inl hp)] at h
      simp at h
    rcases Nat.lt_or_ge curr.length 5 with hc | hc
    · rw [cpuPercent_none_of_short prev curr (Or.inr hc)] at h
      simp at h
    exact ⟨hp, hc⟩
  · rintro ⟨hp, hc⟩
    rw [cpuPercent_eq_of_len prev curr hp hc]
    rfl

/-- Counterexample to C3 as stated: the snapshots need not be monotone, and
for `prev = [0,0,0,0,5]`, `curr = [1,0,0,0,0]` the code computes
`100 * (-4 - -5) / -4 = -25`, outside `[0, 100]`. -/
theorem claim_C3_counterexample :
    cpuPercent [0, 0, 0, 0, 5] [1, 0, 0, 0, 0] = some (-25) ∧ ((-25 : ℚ) < 0) := by
  constructor
  · rw [cpuPercent_eq_of_len _ _ (by decide) (by decide)]
    simp [totalDelta, idleDelta, List.getD]
    norm_num
  · norm_num

lemma ratio_bounds (td idl : ℤ) (h0 : 0 < td) (h1 : 0 ≤ idl) (h2 : idl ≤ td) :
    0 ≤ 100 * ((td : ℚ) - (idl : ℚ)) / (td : ℚ) ∧
      100 * ((td : ℚ) - (idl : ℚ)) / (td : ℚ) ≤ 100 := by
  have hT : (0 : ℚ) < (td : ℚ) := by exact_mod_cast h0
  have hI : (0 : ℚ) ≤ (idl : ℚ) := by exact_mod_cast h1
  have hIT : (idl : ℚ) ≤ (td : ℚ) := by exact_mod_cast h2
  constructor
  · apply div_nonneg _ hT.le
    linarith
  · rw [div_le_iff₀ hT]
    linarith

lemma range_aux (p0 p1 p2 p3 p4 c0 c1 c2 c3 c4 : ℤ) (pt ct : List ℤ)
    (h0 : p0 ≤ c0) (h1 : p1 ≤ c1) (h2 : p2 ≤ c2) (h3 : p3 ≤ c3) (h4 : p4 ≤ c4)
    (ht : List.Forall₂ (· ≤ ·) pt ct) (q : ℚ)
    (hq : cpuPercent (p0 :: p1 :: p2 :: p3 :: p4 :: pt)
      (c0 :: c1 :: c2 :: c3 :: c4 :: ct) = some q) :
    0 ≤ q ∧ q ≤ 100 := by
  have hTail : pt.sum ≤ ct.sum := ht.sum_le_sum
  rw [cpuPercent_eq_of_len _ _ (by simp) (by simp)] at hq
  have hq' := Option.some.inj hq
  have e1 : totalDelta (p0 :: p1 :: p2 :: p3 :: p4 :: pt)
      (c0 :: c1 :: c2 :: c3 :: c4 :: ct) =
      (c0 + c1 + c2 + c3 + c4 + ct.sum) - (p0 + p1 + p2 + p3 + p4 + pt.sum) := by
    simp [totalDelta, List.sum_cons]
    ring
  have e2 : idleDelta (p0 :: p1 :: p2 :: p3 :: p4 :: pt)
      (c0 :: c1 :: c2 :: c3 :: c4 :: ct) = (c3 + c4) - (p3 + p4) := by
    simp [idleDelta, List.getD]
  by_cases htd : totalDelta (p0 :: p1 :: p2 :: p3 :: p4 :: pt)
      (c0 :: c1 :: c2 :: c3 :: c4 :: ct) = 0
  · rw [if_pos htd] at hq'
    rw [← hq']
    norm_num
  · rw [if_neg htd] at hq'
    rw [← hq']
    apply ratio_bounds
    · rw [e1] at htd ⊢
      omega
    · rw [e2]
      omega
    · rw [e1, e2]
      omega

/-- Amended C3: for monotone snapshot pairs (each counter non-decreasing
between the two reads, the normal-operation invariant) with at least 5
counters, the computed value lies in `[0, 100]`, with `0` when
`total_delta = 0`; without monotonicity the code performs no clamping and
can return a value outside the range. -/
theorem claim_C3_range_of_monotone (prev curr : List ℤ) (hp : 5 ≤ prev.length)
    (hmono : List.Forall₂ (· ≤ ·) prev curr) (q : ℚ)
    (hq : cpuPercent prev curr = some q) : 0 ≤ q ∧ q ≤ 100 := by
  rcases hmono with _ | ⟨h0, hm⟩
  · simp at hp
  rcases hm with _ | ⟨h1, hm⟩
  · simp at hp
  rcases hm with _ | ⟨h2, hm⟩
  · simp at hp
  rcases hm with _ | ⟨h3, hm⟩
  · simp at hp
  rcases hm with _ | ⟨h4, hm⟩
  · simp at hp
  exact range_aux _ _ _ _ _ _ _ _ _ _ _ _ h0 h1 h2 h3 h4 hm q hq

/-- Witness for the amended C3 at the spec's scenario snapshots. -/
theorem claim_C3_range_of_monotone_witness :
    0 ≤ (50 : ℚ) / 3 ∧ (50 : ℚ) / 3 ≤ 100 :=
  claim_C3_range_of_monotone [100, 0, 0, 800, 50, 0, 0, 0]
    [110, 0, 0, 850, 50, 0, 0, 0] (by decide)
    (by norm_num [List.forall₂_cons]) (50 / 3)
    (by rw [cpuPercent_eq_of_len _ _ (by decide) (by decide)]
        simp [totalDelta, idleDelta, List.getD]
        norm_num)

/-! ## The sampling loop of `record_cpu` (lines 45-62)

`record_cpu` opens the sink, writes the header when needed, and then runs
`while iterations == 0 or count < iterations`, each iteration calling
`_cpu_percent` (which reads the two snapshots and can raise), appending one
data row `[timestamp, cpu]`, flushing, and incrementing `count`.

The loop is embedded as a step function on an explicit state.  `env i` is
the value the `i`-th call of `_cpu_percent` returns (`none`: that call
raised, i.e. a snapshot read or the computation failed, and the exception
propagates), `ts i` the timestamp string `datetime.now().isoformat()`
observed during cycle `i`.  `Status.errored` records that an exception
propagated out of the loop; a state that is not `running` no longer
changes, matching a loop that has exited. -/

/-- One row of the CSV log: the header row or a data row. -/
inductive Row where
  | header : Row
  | data (ts : String) (cpu : ℚ) : Row
deriving DecidableEq

def Row.isHeader : Row → Bool
  | .header => true
  | .data _ _ => false

def Row.isData : Row → Bool
  | .header => false
  | .data _ _ => true

/-- The sink of `record_cpu`: stdout (target `"-"`), or a filesystem path
together with its state at open time — whether `file_path.exists()` holds,
and the rows already in the file (kept, since the file is opened in append
mode). -/
inductive Sink where
  | stdout : Sink
  | file (present : Bool) (contents : List Row) : Sink
deriving DecidableEq

/-- The `header_needed` flag (lines 45-50): `true` for stdout, and for a
file exactly when `file_path.exists()` is false.  Note the code never inspects
the file's contents, only its existence. -/
def headerNeeded : Sink → Bool
  | .stdout => true
  | .file present _ => !present

/-- What the sink already holds at open time (an absent file holds
nothing). -/
def initialContents : Sink → List Row
  | .stdout => []
  | .file present contents => if present then contents else []

inductive Status where
  | running : Status
  | stopped : Status
  | errored : Status
deriving DecidableEq

structure LoopState where
  count : ℤ
  written : List Row
  status : Status
deriving DecidableEq

/-- The `while` guard at line 58: `iterations == 0 or count < iterations`. -/
def loopCond (iterations count : ℤ) : Bool :=
  iterations == 0 || decide (count < iterations)

/-- The state after the header logic, before the loop: `count = 0` (line
57), header row written when needed (lines 55-56). -/
def initState (sink : Sink) : LoopState :=
  ⟨0, if headerNeeded sink then [Row.header] else [], Status.running⟩

/-- One evaluation of the `while` guard and, when it holds, one loop body
(lines 58-62): call `_cpu_percent` (propagating its exception if it
raises), append the row `[timestamp, cpu]`, increment `count`. -/
def step (env : ℕ → Option ℚ) (ts : ℕ → String) (iterations : ℤ)
    (s : LoopState) : LoopState :=
  match s.status with
  | Status.running =>
    if loopCond iterations s.count then
      match env s.count.toNat with
      | none => { s with status := Status.errored }
      | some q =>
        { count := s.count + 1
          written := s.written ++ [Row.data (ts s.count.toNat) q]
          status := Status.running }
    else { s with status := Status.stopped }
  | _ => s

/-- The loop state after `n` guard evaluations. -/
def run (sink : Sink) (env : ℕ → Option ℚ) (ts : ℕ → String)
    (iterations : ℤ) : ℕ → LoopState
  | 0 => initState sink
  | n + 1 => step env ts iterations (run sink env ts iterations n)

/-- Everything in the sink after `n` guard evaluations: what it already
held, then what this process run wrote. -/
def finalContents (sink : Sink) (env : ℕ → Option ℚ) (ts : ℕ → String)
    (iterations : ℤ) (n : ℕ) : List Row :=
  initialContents sink ++ (run sink env ts iterations n).written

def countHeaders (l : List Row) : ℕ := l.countP Row.isHeader

def countData (l : List Row) : ℕ := l.countP Row.isData

/-- The data row cycle `i` appends when `env i` succeeds. -/
def cycleRow (env : ℕ → Option ℚ) (ts : ℕ → String) (i : ℕ) : Row :=
  Row.data (ts i) ((env i).getD 0)

/-- The data rows of the first `k` completed cycles, in order. -/
def cycleRows (env : ℕ → Option ℚ) (ts : ℕ → String) (k : ℕ) : List Row :=
  (List.range k).map (cycleRow env ts)

lemma step_frozen (env : ℕ → Option ℚ) (ts : ℕ → String) (iterations : ℤ)
    (s : LoopState) (h : s.status ≠ Status.running) :
    step env ts iterations s = s := by
  unfold step
  split
  · rename_i hs
    exact absurd hs h
  · rfl

lemma run_frozen (sink : Sink) (env : ℕ → Option ℚ) (ts : ℕ → String)
    (iterations : ℤ) (m : ℕ)
    (h : (run sink env ts iterations m).status ≠ Status.running)
    (n : ℕ) (hmn : m ≤ n) :
    run sink env ts iterations n = run sink env ts iterations m := by
  induction n with
  | zero =>
    have hm : m = 0 := Nat.le_zero.mp hmn
    rw [hm]
  | succ n ih =>
    rcases Nat.lt_or_ge m (n + 1) with hlt | hge
    · have hmn' : m ≤ n := by omega
      simp only [run]
      rw [ih hmn', step_frozen _ _ _ _ h]
    · have hm : m = n + 1 := by omega
      rw [hm]

lemma run_ok (sink : Sink) (env : ℕ → Option ℚ) (ts : ℕ → String)
    (iterations : ℤ) (k : ℕ)
    (hg : ∀ j : ℕ, j < k → loopCond iterations (j : ℤ) = true)
    (he : ∀ j : ℕ, j < k → (env j).isSome) :
    run sink env ts iterations k =
      ⟨(k : ℤ), (initState sink).written ++ cycleRows env ts k,
        Status.running⟩ := by
  induction k with
  | zero =>
    simp [run, cycleRows, initState]
  | succ k ih =>
    have hg' : ∀ j : ℕ, j < k → loopCond iterations (j : ℤ) = true :=
      fun j hj => hg j (Nat.lt_succ_of_lt hj)
    have he' : ∀ j : ℕ, j < k → (env j).isSome :=
      fun j hj => he j (Nat.lt_succ_of_lt hj)
    obtain ⟨q, hq⟩ := Option.isSome_iff_exists.mp (he k (Nat.lt_succ_self k))
    simp only [run]
    rw [ih hg' he']
    unfold step
    simp only [hg k (Nat.lt_succ_self k), if_true, Int.toNat_natCast, hq]
    simp only [cycleRows, List.range_succ, List.map_append, List.map_cons,
      List.map_nil, cycleRow, hq, Option.getD_some]
    simp only [LoopState.mk.injEq]
    refine ⟨by push_cast; ring, by rw [List.append_assoc], trivial⟩

lemma countHeaders_append (l1 l2 : List Row) :
    countHeaders (l1 ++ l2) = countHeaders l1 + countHeaders l2 :=
  List.countP_append _ _ _

lemma countData_append (l1 l2 : List Row) :
    countData (l1 ++ l2) = countData l1 + countData l2 :=
  List.countP_append _ _ _

lemma countData_initState (sink : Sink) :
    countData (initState sink).written = 0 := by
  simp only [initState]
  split <;> rfl

lemma countHeaders_initState (sink : Sink) :
    countHeaders (initState sink).written =
      (if headerNeeded sink then 1 else 0) := by
  simp only [initState]
  split <;> rfl

lemma countData_cycleRows (env : ℕ → Option ℚ) (ts : ℕ → String) (k : ℕ) :
    countData (cycleRows env ts k) = k := by
  unfold countData cycleRows
  rw [List.countP_map, List.countP_eq_length.mpr]
  · exact List.length_range k
  · intro a ha
    rfl

lemma countHeaders_step (env : ℕ → Option ℚ) (ts : ℕ → String)
    (iterations : ℤ) (s : LoopState) :
    countHeaders (step env ts iterations s).written = countHeaders s.written := by
  unfold step
  split
  · split
    · split
      · rfl
      · simp [countHeaders, List.countP_append, Row.isHeader]
    · rfl
  · rfl

lemma countHeaders_run (sink : Sink) (env : ℕ → Option ℚ) (ts : ℕ → String)
    (iterations : ℤ) (n : ℕ) :
    countHeaders (run sink env ts iterations n).written =
      countHeaders (initState sink).written := by
  induction n with
  | zero => rfl
  | succ n ih =>
    simp only [run]
    rw [countHeaders_step, ih]

/-- C5: with an iteration budget of `0` (the default) the guard
`iterations == 0 or count < iterations` is true at every cycle, so as long
as every `_cpu_percent` call returns, the loop is still running after any
number of guard evaluations, having completed exactly that many cycles —
it never terminates on its own. -/
theorem claim_C5_zero_budget_never_stops (sink : Sink) (env : ℕ → Option ℚ)
    (ts : ℕ → String) (he : ∀ i : ℕ, (env i).isSome) (n : ℕ) :
    (run sink env ts 0 n).status = Status.running ∧
      (run sink env ts 0 n).count = (n : ℤ) := by
  have h := run_ok sink env ts 0 n (fun j _ => by simp [loopCond])
    (fun j _ => he j)
  rw [h]
  exact ⟨rfl, rfl⟩

/-- Witness for C5 after three cycles of an always-succeeding
environment. -/
theorem claim_C5_zero_budget_never_stops_witness :
    (run Sink.stdout (fun _ => some 0) (fun _ => "t") 0 3).status =
        Status.running ∧
      (run Sink.stdout (fun _ => some 0) (fun _ => "t") 0 3).count = (3 : ℤ) :=
  claim_C5_zero_budget_never_stops Sink.stdout (fun _ => some 0)
    (fun _ => "t") (fun _ => rfl) 3

/-- C10: for a negative iteration budget the guard is already false on
entry (`iterations == 0` fails and `0 < iterations` fails), so the body
never runs: nothing beyond the initial header decision is ever written and
the loop stops at the first guard evaluation. -/
theorem claim_C10_negative_budget_no_cycles (sink : Sink)
    (env : ℕ → Option ℚ) (ts : ℕ → String) (iterations : ℤ)
    (hneg : iterations < 0) (n : ℕ) :
    (run sink env ts iterations n).written = (initState sink).written ∧
      (1 ≤ n → (run sink env ts iterations n).status = Status.stopped) := by
  have hcond : loopCond iterations 0 = false := by
    simp only [loopCond, Bool.or_eq_false_iff, beq_eq_false_iff_ne,
      decide_eq_false_iff_not]
    omega
  have h1 : run sink env ts iterations 1 =
      { initState sink with status := Status.stopped } := by
    show step env ts iterations (initState sink) = _
    unfold step initState
    simp [hcond]
  cases n with
  | zero => exact ⟨rfl, by omega⟩
  | succ m =>
    have hfroz := run_frozen sink env ts iterations 1
      (by rw [h1]; simp) (m + 1) (by omega)
    rw [hfroz, h1]
    exact ⟨rfl, fun _ => rfl⟩

/-- Witness for C10 at `iterations = -1`. -/
theorem claim_C10_negative_budget_no_cycles_witness :
    (run Sink.stdout (fun _ => some 0) (fun _ => "t") (-1) 1).written =
        (initState Sink.stdout).written ∧
      (1 ≤ 1 →
        (run Sink.stdout (fun _ => some 0) (fun _ => "t") (-1) 1).status =
          Status.stopped) :=
  claim_C10_negative_budget_no_cycles Sink.stdout (fun _ => some 0)
    (fun _ => "t") (-1) (by norm_num) 1

lemma step_stop (env : ℕ → Option ℚ) (ts : ℕ → String) (iterations c : ℤ)
    (w : List Row) (hcond : loopCond iterations c = false) :
    step env ts iterations ⟨c, w, Status.running⟩ = ⟨c, w, Status.stopped⟩ := by
  unfold step
  simp [hcond]

lemma step_fail (env : ℕ → Option ℚ) (ts : ℕ → String) (iterations c : ℤ)
    (w : List Row) (hcond : loopCond iterations c = true)
    (hfail : env c.toNat = none) :
    step env ts iterations ⟨c, w, Status.running⟩ = ⟨c, w, Status.errored⟩ := by
  unfold step
  simp [hcond, hfail]

/-- C4: with a positive iteration budget and every `_cpu_percent` call
returning, the loop performs exactly `iterations` cycles and stops: after
the budget is exhausted the state is `stopped`, the rows written by the
run are the header decision followed by exactly one data row per cycle,
and the number of data rows equals the budget. -/
theorem claim_C4_bounded_iterations (sink : Sink) (env : ℕ → Option ℚ)
    (ts : ℕ → String) (iterations : ℤ) (hpos : 0 < iterations)
    (he : ∀ i : ℕ, (env i).isSome) (n : ℕ) (hn : iterations.toNat < n) :
    (run sink env ts iterations n).status = Status.stopped ∧
      (run sink env ts iterations n).written =
        (initState sink).written ++ cycleRows env ts iterations.toNat ∧
      countData (run sink env ts iterations n).written = iterations.toNat := by
  have hg : ∀ j : ℕ, j < iterations.toNat → loopCond iterations (j : ℤ) = true := by
    intro j hj
    simp only [loopCond, Bool.or_eq_true, beq_iff_eq, decide_eq_true_eq]
    omega
  have hrun := run_ok sink env ts iterations iterations.toNat hg
    (fun j _ => he j)
  have hcond : loopCond iterations ((iterations.toNat : ℕ) : ℤ) = false := by
    simp only [loopCond, Bool.or_eq_false_iff, beq_eq_false_iff_ne,
      decide_eq_false_iff_not]
    omega
  have hstep : run sink env ts iterations (iterations.toNat + 1) =
      { count := (iterations.toNat : ℤ),
        written := (initState sink).written ++ cycleRows env ts iterations.toNat,
        status := Status.stopped } := by
    show step env ts iterations (run sink env ts iterations iterations.toNat) = _
    rw [hrun]
    exact step_stop _ _ _ _ _ hcond
  have hfroz := run_frozen sink env ts iterations (iterations.toNat + 1)
    (by rw [hstep]; simp) n (by omega)
  rw [hfroz, hstep]
  refine ⟨rfl, rfl, ?_⟩
  show countData ((initState sink).written ++ cycleRows env ts iterations.toNat) = _
  rw [countData_append, countData_initState, countData_cycleRows]
  omega

/-- Witness for C4, the spec's scenario: `--iterations 3` against a fresh
(non-existent) target file gives, once the loop has stopped, a sink of
exactly 4 lines: 1 header plus 3 data rows. -/
theorem claim_C4_bounded_iterations_witness :
    ((run (Sink.file false []) (fun _ => some 0) (fun _ => "t") 3 5).status =
        Status.stopped ∧
      (run (Sink.file false []) (fun _ => some 0) (fun _ => "t") 3 5).written =
        (initState (Sink.file false [])).written ++
          cycleRows (fun _ => some 0) (fun _ => "t") (3 : ℤ).toNat ∧
      countData (run (Sink.file false []) (fun _ => some 0) (fun _ => "t") 3
        5).written = (3 : ℤ).toNat) ∧
      (finalContents (Sink.file false []) (fun _ => some 0) (fun _ => "t") 3
        5).length = 4 :=
  ⟨claim_C4_bounded_iterations (Sink.file false []) (fun _ => some 0)
    (fun _ => "t") 3 (by decide) (fun _ => rfl) 5 (by decide), by decide⟩

/-- C6: if the first `k` cycles succeed and cycle `k` fails (a snapshot
read or the computation raises), the error propagates — the loop state is
`errored` — and the rows written are exactly the header decision plus the
data rows of the `k` completed cycles: the failing cycle contributes
nothing. -/
theorem claim_C6_failed_cycle_writes_nothing (sink : Sink)
    (env : ℕ → Option ℚ) (ts : ℕ → String) (iterations : ℤ) (k : ℕ)
    (he : ∀ j : ℕ, j < k → (env j).isSome) (hfail : env k = none)
    (hg : ∀ j : ℕ, j ≤ k → loopCond iterations (j : ℤ) = true)
    (n : ℕ) (hn : k < n) :
    (run sink env ts iterations n).status = Status.errored ∧
      (run sink env ts iterations n).written =
        (initState sink).written ++ cycleRows env ts k := by
  have hrun := run_ok sink env ts iterations k (fun j hj => hg j (le_of_lt hj)) he
  have hstep : run sink env ts iterations (k + 1) =
      { count := (k : ℤ),
        written := (initState sink).written ++ cycleRows env ts k,
        status := Status.errored } := by
    show step env ts iterations (run sink env ts iterations k) = _
    rw [hrun]
    exact step_fail _ _ _ _ _ (hg k (le_refl k))
      (by rw [Int.toNat_natCast]; exact hfail)
  have hfroz := run_frozen sink env ts iterations (k + 1)
    (by rw [hstep]; simp) n (by omega)
  rw [hfroz, hstep]
  exact ⟨rfl, rfl⟩

/-- Witness for C6: two successful cycles, then a failing third, with an
unbounded budget; after the failure the log holds exactly the two completed
rows. -/
theorem claim_C6_failed_cycle_writes_nothing_witness :
    (run Sink.stdout (fun i => if i < 2 then some 1 else none) (fun _ => "t")
        0 3).status = Status.errored ∧
      (run Sink.stdout (fun i => if i < 2 then some 1 else none) (fun _ => "t")
        0 3).written =
        (initState Sink.stdout).written ++
          cycleRows (fun i => if i < 2 then some 1 else none) (fun _ => "t") 2 :=
  claim_C6_failed_cycle_writes_nothing Sink.stdout
    (fun i => if i < 2 then some 1 else none) (fun _ => "t") 0 2
    (by decide) (by decide) (fun j _ => rfl) 3 (by decide)

/-- Counterexample to C2 as stated: the code decides the header from
`file_path.exists()` alone, never from the file's contents, so a target
that already exists but is *empty* gets **zero** header rows, where the
claim ("exactly once when the target is brand-new or empty at open time")
demands one.  Here: pre-existing empty file, one sampling cycle. -/
theorem claim_C2_counterexample :
    countHeaders (finalContents (Sink.file true []) (fun _ => some 0)
        (fun _ => "t") 1 2) = 0 ∧
      ¬ countHeaders (finalContents (Sink.file true []) (fun _ => some 0)
        (fun _ => "t") 1 2) = 1 := by
  constructor
  · decide
  · decide

/-- Amended C2: the header row is written exactly once when the sink is
standard output or a filesystem target that does not exist at open time,
and zero times when the target already exists (even if empty); appending
any number of further cycles never emits an additional header — the
process run adds exactly `headerNeeded` many header rows to whatever the
sink already held. -/
theorem claim_C2_header_emission (sink : Sink) (env : ℕ → Option ℚ)
    (ts : ℕ → String) (iterations : ℤ) (n : ℕ) :
    countHeaders (finalContents sink env ts iterations n) =
      countHeaders (initialContents sink) +
        (match sink with
         | Sink.stdout => 1
         | Sink.file present _ => if present then 0 else 1) := by
  unfold finalContents
  rw [countHeaders_append, countHeaders_run, countHeaders_initState]
  cases sink with
  | stdout => rfl
  | file present contents => cases present <;> rfl

/-! ## The snapshot reader `_read_cpu_times` (lines 16-19)

The first line of `/proc/stat` is modelled after `split()` as its list of
whitespace-separated tokens; `[1:]` drops the leading label token and
`int(p)` parses each remaining token, raising `ValueError` at the first
non-numeric one.  A token is numeric when it is an optional minus sign
followed by at least one decimal digit. -/

/-- One decimal digit, or `none` for any other character. -/
def digitToNat (c : Char) : Option ℕ :=
  if (Char.ofNat 48) ≤ c ∧ c ≤ (Char.ofNat 57) then
    some (c.toNat - 48)
  else none

/-- Parses a run of decimal digits big-endian onto the accumulator `acc`,
failing at the first non-digit character. -/
def parseNatChars : List Char → ℕ → Option ℕ
  | [], acc => some acc
  | c :: cs, acc =>
    match digitToNat c with
    | some d => parseNatChars cs (acc * 10 + d)
    | none => none

/-- Python `int(token)` on a counter token: optional minus sign, then at
least one decimal digit. -/
def parseIntToken (s : String) : Option ℤ :=
  match s.data with
  | [] => none
  | c :: rest =>
    if c = Char.ofNat 45 then
      match rest with
      | [] => none
      | _ => (parseNatChars rest 0).map (fun n => -(n : ℤ))
    else (parseNatChars (c :: rest) 0).map (fun n => (n : ℤ))

/-- The comprehension `[int(p) for p in parts]` (line 19): parses the
tokens in order, failing at the first non-numeric one (all-or-nothing). -/
def mapIntTokens : List String → Option (List ℤ)
  | [] => some []
  | t :: rest =>
    match parseIntToken t with
    | none => none
    | some v => (mapIntTokens rest).map (fun l => v :: l)

/-- Embeds `_read_cpu_times` at the token level: drop the label token
(`[1:]`), then parse every remaining token as an integer. -/
def readCpuTimes (tokens : List String) : Option (List ℤ) :=
  mapIntTokens (tokens.drop 1)

lemma mapIntTokens_isSome (l : List String) :
    (mapIntTokens l).isSome ↔ ∀ t ∈ l, (parseIntToken t).isSome := by
  induction l with
  | nil => simp [mapIntTokens]
  | cons t rest ih =>
    cases hpt : parseIntToken t with
    | none => simp [mapIntTokens, hpt]
    | some v => simp [mapIntTokens, hpt, ih]

/-- C7: the snapshot reader discards the leading label token and parses
every remaining token as an integer; it succeeds if and only if every
token after the label is numeric — a single non-numeric token makes the
whole read fail (no silent skip). -/
theorem claim_C7_reader_all_or_nothing (label : String)
    (tokens : List String) :
    readCpuTimes (label :: tokens) = mapIntTokens tokens ∧
      ((readCpuTimes (label :: tokens)).isSome ↔
        ∀ t ∈ tokens, (parseIntToken t).isSome) :=
  ⟨rfl, mapIntTokens_isSome tokens⟩

/-! ## Row serialization and the C9 round-trip

`csv.writer` serializes the row `[timestamp, cpu]` as two delimited cells.
The float's decimal text is idealized as an exact rational serialization
(sign, numerator digits, `/`, denominator digits); what C9 claims — two
fields per data row, the second parsing back to the exact value written —
is proved for this serialization. -/

/-- Big-endian decimal digit characters of `n` by repeated division;
`fuel` bounds the recursion and `fuel = n` always suffices. -/
def natCharsAux : ℕ → ℕ → List Char
  | 0, _ => []
  | fuel + 1, n =>
    if n = 0 then []
    else natCharsAux fuel (n / 10) ++ [Char.ofNat (n % 10 + 48)]

def natChars (n : ℕ) : List Char :=
  if n = 0 then [Char.ofNat 48] else natCharsAux n n

/-- The serialized text of the sample value: sign, numerator digits, a
slash, denominator digits. -/
def serializeRat (q : ℚ) : String :=
  String.mk ((if q.num < 0 then [Char.ofNat 45] else []) ++
    natChars q.num.natAbs ++ Char.ofNat 47 :: natChars q.den)

/-- The serialized cells of one CSV row, as `csv.writer` receives them
(line 56 for the header, line 60 for a data row). -/
def Row.fields : Row → List String
  | .header => ["timestamp", "cpu_percent"]
  | .data t cpu => [t, serializeRat cpu]

/-- Splits at the first slash, failing when there is none. -/
def splitSlash : List Char → Option (List Char × List Char)
  | [] => none
  | c :: cs =>
    if c = Char.ofNat 47 then some ([], cs)
    else (splitSlash cs).map (fun p => (c :: p.1, p.2))

/-- A non-empty digit run. -/
def parseNatPart (l : List Char) : Option ℕ :=
  match l with
  | [] => none
  | _ => parseNatChars l 0

def parsePosRat (l : List Char) : Option ℚ :=
  (splitSlash l).bind fun p =>
    (parseNatPart p.1).bind fun n =>
      (parseNatPart p.2).map fun d => (n : ℚ) / (d : ℚ)

def parseRatChars : List Char → Option ℚ
  | [] => none
  | c :: rest =>
    if c = Char.ofNat 45 then (parsePosRat rest).map (fun q => -q)
    else parsePosRat (c :: rest)

/-- Reading one CSV cell back as a rational number. -/
def parseRatField (s : String) : Option ℚ :=
  parseRatChars s.data

lemma digitChar_facts (d : ℕ) (hd : d < 10) :
    digitToNat (Char.ofNat (d + 48)) = some d ∧
      Char.ofNat (d + 48) ≠ Char.ofNat 47 ∧
      Char.ofNat (d + 48) ≠ Char.ofNat 45 := by
  interval_cases d <;> exact ⟨by decide, by decide, by decide⟩

lemma parseNatChars_append (a b : List Char) (acc : ℕ) :
    parseNatChars (a ++ b) acc =
      (parseNatChars a acc).bind fun m => parseNatChars b m := by
  induction a generalizing acc with
  | nil => rfl
  | cons c cs ih =>
    cases h : digitToNat c with
    | none => simp [parseNatChars, h]
    | some d => simp [parseNatChars, h, ih]

lemma parseNatChars_natCharsAux (fuel : ℕ) :
    ∀ n : ℕ, n ≤ fuel → ∀ acc : ℕ,
      parseNatChars (natCharsAux fuel n) acc =
        some (acc * 10 ^ (natCharsAux fuel n).length + n) := by
  induction fuel with
  | zero =>
    intro n hn acc
    interval_cases n
    simp [natCharsAux, parseNatChars]
  | succ fuel ih =>
    intro n hn acc
    by_cases h0 : n = 0
    · subst h0
      simp [natCharsAux, parseNatChars]
    · have hdiv : n / 10 ≤ fuel := by omega
      rw [natCharsAux, if_neg h0, parseNatChars_append,
        ih (n / 10) hdiv acc]
      have hd := (digitChar_facts (n % 10) (by omega)).1
      simp only [Option.some_bind, parseNatChars, hd,
        List.length_append, List.length_cons, List.length_nil]
      congr 1
      rw [pow_succ, ← mul_assoc]
      set A := acc * 10 ^ (natCharsAux fuel (n / 10)).length
      omega

lemma parseNatChars_natChars (n : ℕ) :
    parseNatChars (natChars n) 0 = some n := by
  unfold natChars
  by_cases h0 : n = 0
  · subst h0
    decide
  · rw [if_neg h0, parseNatChars_natCharsAux n n (le_refl n) 0]
    simp

lemma natChars_ne_nil (n : ℕ) : natChars n ≠ [] := by
  unfold natChars
  split
  · simp
  · rename_i h0
    cases n with
    | zero => exact absurd rfl h0
    | succ m =>
      rw [natCharsAux, if_neg h0]
      simp

lemma natCharsAux_chars (fuel : ℕ) :
    ∀ n : ℕ, ∀ c ∈ natCharsAux fuel n,
      c ≠ Char.ofNat 47 ∧ c ≠ Char.ofNat 45 := by
  induction fuel with
  | zero =>
    intro n c hc
    simp [natCharsAux] at hc
  | succ fuel ih =>
    intro n c hc
    rw [natCharsAux] at hc
    split at hc
    · simp at hc
    · rw [List.mem_append] at hc
      rcases hc with hc | hc
      · exact ih _ c hc
      · simp only [List.mem_singleton] at hc
        subst hc
        have h := digitChar_facts (n % 10) (by omega)
        exact ⟨h.2.1, h.2.2⟩

lemma natChars_chars (n : ℕ) (c : Char) (hc : c ∈ natChars n) :
    c ≠ Char.ofNat 47 ∧ c ≠ Char.ofNat 45 := by
  unfold natChars at hc
  split at hc
  · simp only [List.mem_singleton] at hc
    subst hc
    exact ⟨by decide, by decide⟩
  · exact natCharsAux_chars n n c hc

lemma splitSlash_append (a b : List Char) (ha : ∀ c ∈ a, c ≠ Char.ofNat 47) :
    splitSlash (a ++ Char.ofNat 47 :: b) = some (a, b) := by
  induction a with
  | nil => simp [splitSlash]
  | cons c cs ih =>
    have hc : c ≠ Char.ofNat 47 := ha c (List.mem_cons_self c cs)
    simp only [List.cons_append, splitSlash, if_neg hc]
    rw [List.append_eq, ih (fun x hx => ha x (List.mem_cons_of_mem c hx))]
    rfl

lemma parseNatPart_of_ne_nil (l : List Char) (h : l ≠ []) :
    parseNatPart l = parseNatChars l 0 := by
  cases l with
  | nil => exact absurd rfl h
  | cons c cs => rfl

lemma parsePosRat_serialized (a b : ℕ) :
    parsePosRat (natChars a ++ Char.ofNat 47 :: natChars b) =
      some ((a : ℚ) / (b : ℚ)) := by
  unfold parsePosRat
  rw [splitSlash_append _ _ (fun c hc => (natChars_chars a c hc).1)]
  simp only [Option.some_bind]
  rw [parseNatPart_of_ne_nil _ (natChars_ne_nil a), parseNatChars_natChars,
    parseNatPart_of_ne_nil _ (natChars_ne_nil b), parseNatChars_natChars]
  rfl

lemma parseRatChars_of_ne (l : List Char) (hne : l ≠ [])
    (h : ∀ c ∈ l, c ≠ Char.ofNat 45) :
    parseRatChars l = parsePosRat l := by
  cases l with
  | nil => exact absurd rfl hne
  | cons c cs =>
    simp only [parseRatChars, if_neg (h c (List.mem_cons_self c cs))]

/-- The serialization of a sample value parses back to exactly that
value. -/
theorem parse_serializeRat (q : ℚ) : parseRatField (serializeRat q) = some q := by
  show parseRatChars ((if q.num < 0 then [Char.ofNat 45] else []) ++
    natChars q.num.natAbs ++ Char.ofNat 47 :: natChars q.den) = some q
  by_cases hneg : q.num < 0
  · rw [if_pos hneg]
    show parseRatChars (Char.ofNat 45 ::
      (natChars q.num.natAbs ++ Char.ofNat 47 :: natChars q.den)) = some q
    simp only [parseRatChars, if_pos rfl]
    rw [parsePosRat_serialized]
    simp only [Option.map_some', if_true]
    congr 1
    have h1 : ((q.num.natAbs : ℤ)) = -q.num := by omega
    rw [show ((q.num.natAbs : ℕ) : ℚ) = ((q.num.natAbs : ℤ) : ℚ) from
      (Int.cast_natCast q.num.natAbs).symm, h1, Int.cast_neg, neg_div,
      neg_neg, Rat.num_div_den]
  · rw [if_neg hneg, List.nil_append]
    rw [parseRatChars_of_ne _ (by simp [natChars_ne_nil]) ?hmem]
    case hmem =>
      intro c hc
      rw [List.mem_append] at hc
      rcases hc with hc | hc
      · exact (natChars_chars _ c hc).2
      · rw [List.mem_cons] at hc
        rcases hc with hc | hc
        · subst hc
          decide
        · exact (natChars_chars _ c hc).2
    rw [parsePosRat_serialized]
    congr 1
    have h1 : ((q.num.natAbs : ℤ)) = q.num := by omega
    rw [show ((q.num.natAbs : ℕ) : ℚ) = ((q.num.natAbs : ℤ) : ℚ) from
      (Int.cast_natCast q.num.natAbs).symm, h1, Rat.num_div_den]

/-- C9: every data row the loop writes serializes to exactly two fields,
and the second field parses back to exactly the `cpu_percent` value that
was written. -/
theorem claim_C9_row_roundtrip (sink : Sink) (env : ℕ → Option ℚ)
    (ts : ℕ → String) (iterations : ℤ) (n : ℕ) (r : Row)
    (hr : r ∈ (run sink env ts iterations n).written) (t : String) (q : ℚ)
    (hdata : r = Row.data t q) :
    (Row.fields r).length = 2 ∧
      parseRatField ((Row.fields r).getD 1 "") = some q := by
  subst hdata
  exact ⟨rfl, parse_serializeRat q⟩

/-- Witness for C9: a one-cycle run on stdout whose data row carries the
value `37`; its serialized second field parses back to `37`. -/
theorem claim_C9_row_roundtrip_witness :
    (Row.data "t" 37 ∈
        (run Sink.stdout (fun _ => some 37) (fun _ => "t") 0 2).written) ∧
      ((Row.fields (Row.data "t" 37)).length = 2 ∧
        parseRatField ((Row.fields (Row.data "t" 37)).getD 1 "") =
          some 37) :=
  ⟨by decide, claim_C9_row_roundtrip Sink.stdout (fun _ => some 37)
    (fun _ => "t") 0 2 (Row.data "t" 37) (by decide) "t" 37 rfl⟩
